import Mathlib

/-!
# Verification of the squawk-react reactive store (`src/Squawk.ts`)

This file gives a shallow embedding, in Lean 4, of the reactive state
container implemented in `src/Squawk.ts` (the `createStore` /
`createStoreWrapper` version): the field-set merge semantics of
`dispatchUpdate`, the deduplicated notification pass of
`notifySubscribers`, the reference-counted `pending` tracker, and the
`action` wrapper, together with the runtime validation performed at
store construction.

Modelling conventions:

* JavaScript values are the inductive `JSValue`.  Numbers are modelled
  as integers (the engine never does arithmetic on stored values, and
  `NaN` is out of scope); object values are association lists in which
  a later binding for a key shadows an earlier one, exactly the
  semantics of JavaScript object literals and of spread-merge.
* A JavaScript object is therefore `List (String × JSValue)`, read
  through `lookupLast`; the spread `{...old, ...patch}` is list
  concatenation `old ++ patch`, which has exactly the same key/value
  semantics (the patch binding wins).
* Callbacks are identified by `Nat` (JavaScript `Set` membership is
  reference identity; an identity suffices because the engine never
  inspects a callback, it only stores, deduplicates and invokes it).
  A notification pass is represented by the list of
  (callback, argument) invocations it performs, in order.
* The subscriber maps (`Map<StoreProp, Set<Callback>>`) are modelled
  as total functions `Field → List CallbackId`, a field's list being
  the insertion-ordered contents of its `Set` (hence duplicate-free
  in any state reachable through the real code; none of the theorems
  below needs that hypothesis).  A key absent from the map is modelled
  as the empty list.
* The mutable `pendingCount` / `pendingState` wrappers are total
  functions updated by `setVal`; a thrown JavaScript `Error` is the
  `error` field of the result (set to `some message`), and mutations
  performed before the throw survive it, as they do in the source.
-/

namespace Squawk

/-- Field names of the store (`keyof TStore` at runtime: string keys). -/
abbrev Field := String

/-- Identity of a callback; JavaScript compares callbacks by reference. -/
abbrev CallbackId := Nat

/-- A JavaScript value, as far as the engine inspects values: the engine
only ever asks whether a value is truthy and what `typeof` returns, so
this constructor set (with integers for numbers) is sufficient. -/
inductive JSValue where
  | undef
  | null
  | bool (b : Bool)
  | num (n : Int)
  | str (s : String)
  | obj (fields : List (String × JSValue))

/-- JavaScript truthiness of a `JSValue` (`!value` is its negation).
`NaN` does not exist in this integer model. -/
def jsTruthy : JSValue → Bool
  | .undef => false
  | .null => false
  | .bool b => b
  | .num n => n != 0
  | .str s => s != ""
  | .obj _ => true

/-- The JavaScript `typeof` operator on a `JSValue`. -/
def jsTypeof : JSValue → String
  | .undef => "undefined"
  | .null => "object"
  | .bool _ => "boolean"
  | .num _ => "number"
  | .str _ => "string"
  | .obj _ => "object"

/-- A JavaScript object: bindings in insertion order, a later binding
for the same key shadowing an earlier one. -/
abbrev JSObject := List (Field × JSValue)

/-- The store's field set (`globalState` inside `createStoreWrapper`). -/
abbrev FieldSet := JSObject

/-- Property read on a JavaScript object: the value of the LAST binding
of the key, or `none` when the key is absent. -/
def lookupLast : JSObject → Field → Option JSValue
  | [], _ => none
  | (k, v) :: rest, f =>
    match lookupLast rest f with
    | some w => some w
    | none => if k = f then some v else none

/-- Reading a property of a JavaScript object yields `undefined` when
the key is absent. -/
def fsGet (fs : JSObject) (f : Field) : JSValue :=
  (lookupLast fs f).getD JSValue.undef

/-- `{ ...old, ...patch }` — the spread-merge performed by
`createStoreWrapper.update` (`globalState = { ...globalState, ...updatedValues }`).
As a key/value map this is concatenation: the patch's binding wins. -/
def spreadMerge (old : FieldSet) (patch : JSObject) : FieldSet :=
  old ++ patch

/-- `Object.keys` of a patch object (in binding order). -/
def objKeys (p : JSObject) : List Field :=
  p.map Prod.fst

/-- `Set.add` on an insertion-ordered set represented as a list:
append the element unless it is already present. -/
def insertUnique (acc : List CallbackId) (c : CallbackId) : List CallbackId :=
  if c ∈ acc then acc else acc ++ [c]

/-- Adding every element of `l` to the set `acc` (a `forEach`/`add` loop). -/
def insertAll (acc : List CallbackId) (l : List CallbackId) : List CallbackId :=
  l.foldl insertUnique acc

/-- The deduplicated invocation order of `notifySubscribers(contexts)`:
walk the subscriber list of each context in order, skipping callbacks
already invoked (`invokedSubscribers` in the source). -/
def notifyList (subs : Field → List CallbackId) (contexts : List Field) :
    List CallbackId :=
  (contexts.map subs).foldl insertAll []

/-- The argument of a `dispatchUpdate` call:
`Partial<TStore> | (() => Partial<TStore>)`.  The source distinguishes
the two with `typeof value === "function"` and evaluates a function
argument as `value()` — with NO arguments.  By the JavaScript calling
convention a parameter the function declares anyway is bound to
`undefined`, which is how the `func` case is invoked below; a true
thunk simply ignores the argument. -/
inductive WriteArg where
  | val (v : JSValue)
  | func (g : JSValue → JSValue)

/-- `dispatchUpdate` of `src/Squawk.ts` (Redux-devtools hook absent, the
default): evaluate a function argument by calling it with no arguments
(its parameter, if any, is bound to `undefined`), no-op
unless the resolved patch is a truthy value of `typeof` "object",
otherwise spread-merge it into the state and notify the subscribers of
the patch's keys, each exactly once, with the post-merge snapshot
(`globalState.get()`).  Returns the new field set and the list of
(callback, argument) invocations of the notification pass. -/
def dispatchUpdate (subs : Field → List CallbackId) (fs : FieldSet)
    (value : WriteArg) : FieldSet × List (CallbackId × FieldSet) :=
  let updatedValues := match value with
    | .func g => g JSValue.undef
    | .val v => v
  if !(jsTruthy updatedValues) || jsTypeof updatedValues != "object" then
    (fs, [])
  else
    match updatedValues with
    | .obj patch =>
      let fs2 := spreadMerge fs patch
      (fs2, (notifyList subs (objKeys patch)).map (fun c => (c, fs2)))
    | _ => (fs, [])

/-- The field set after a sequence of `update` calls, each with an
object-shaped patch. -/
def writeSeq (subs : Field → List CallbackId) (fs : FieldSet)
    (patches : List JSObject) : FieldSet :=
  patches.foldl (fun s p => (dispatchUpdate subs s (.val (.obj p))).1) fs

/-- The specification's field-wise merge: the value a field has after a
sequence of patches is the value of the LAST patch that binds it. -/
def lastPatchWins (patches : List JSObject) (f : Field) : Option JSValue :=
  patches.reverse.findSome? (fun p => lookupLast p f)

/-- Running the notification pass when callbacks may throw:
`beh c = true` means callback `c` throws when invoked.  The source has
no try/catch around `subscriber(globalState.get())`, so the pass stops
at the first throwing callback (which was invoked) and the error
propagates.  Returns the callbacks actually invoked, in order, and
whether an error escaped. -/
def runCallbacks (beh : CallbackId → Bool) : List CallbackId → List CallbackId × Bool
  | [] => ([], false)
  | c :: rest =>
    if beh c then ([c], true)
    else
      let r := runCallbacks beh rest
      (c :: r.1, r.2)

/-- `dispatchUpdate` with possibly-throwing callbacks: the merge is
committed to the state before the notification pass starts, and the
pass aborts at the first throwing callback. -/
def dispatchUpdateT (subs : Field → List CallbackId) (beh : CallbackId → Bool)
    (fs : FieldSet) (value : WriteArg) : FieldSet × (List CallbackId × Bool) :=
  let updatedValues := match value with
    | .func g => g JSValue.undef
    | .val v => v
  if !(jsTruthy updatedValues) || jsTypeof updatedValues != "object" then
    (fs, ([], false))
  else
    match updatedValues with
    | .obj patch =>
      let fs2 := spreadMerge fs patch
      (fs2, runCallbacks beh (notifyList subs (objKeys patch)))
    | _ => (fs, ([], false))

/-- Pointwise update of a total map, modelling
`createStoreWrapper.setValue(prop, value)` on the pending wrappers. -/
def setVal {α : Type} (m : Field → α) (f : Field) (v : α) : Field → α :=
  fun g => if g = f then v else m g

/-- Result of the loop inside `pending`: the counters and boolean
states after the mutations performed so far, the internal set of
pending subscribers collected so far, and the error thrown, if any
(mutations made before the throw survive it). -/
structure PendingResult where
  pendingCount : Field → Int
  pendingState : Field → Bool
  collected : List CallbackId
  error : Option String

/-- The `for (const context of contextList)` loop of `pending`:
increment (`st = true`) or decrement (`st = false`) each context's
counter in order; a decrement that would make a counter negative
throws `Too many calls to pending(...)` at that point, leaving the
counters already written in place and skipping the rest. -/
def pendingLoop (st : Bool) (psubs : Field → List CallbackId) :
    List Field → (Field → Int) → (Field → Bool) → List CallbackId → PendingResult
  | [], pc, ps, acc => ⟨pc, ps, acc, none⟩
  | f :: rest, pc, ps, acc =>
    let newValue := pc f + (if st then 1 else -1)
    if newValue < 0 then
      ⟨pc, ps, acc, some ("Too many calls to pending(\"" ++ f ++ "\", false)")⟩
    else
      pendingLoop st psubs rest (setVal pc f newValue)
        (setVal ps f (decide (0 < newValue))) (insertAll acc (psubs f))

/-- `createdStore.pending(contexts, st)`: run the counter loop, then —
only if no error was thrown — invoke every collected pending
subscriber once with the final pending-state snapshot
(`pendingState.get()`).  Returns the loop result and the list of
(callback, argument) invocations performed. -/
def pendingModel (psubs : Field → List CallbackId) (contexts : List Field)
    (st : Bool) (pc : Field → Int) (ps : Field → Bool) :
    PendingResult × List (CallbackId × (Field → Bool)) :=
  let r := pendingLoop st psubs contexts pc ps []
  match r.error with
  | some _ => (r, [])
  | none => (r, r.collected.map (fun c => (c, r.pendingState)))

/-- The mutable state owned by one store: the field set and the two
pending wrappers. -/
structure StoreState where
  fieldSet : FieldSet
  pendingCount : Field → Int
  pendingState : Field → Bool

/-- Outcome of awaiting `resolver(globalState.get(), ...args)`:
`await Promise.resolve(...)` turns a synchronous return and a fulfilled
promise into `ok`, and a synchronous throw and a rejected promise into
`err`. -/
inductive ResolverOutcome where
  | ok (v : JSValue)
  | err (e : String)

/-- One call of the operation returned by
`action(resolver, affectedContexts)`:
`pending(affected, true)`; then `try { const value = await ...;
if (value) dispatchUpdate(value) } finally { pending(affected, false) }`.
An error of the `finally` block replaces the in-flight error, as in
JavaScript; a resolver error is re-raised after pending is reset.
Returns the final store state and the error (if any) seen by the
operation's caller. -/
def actionModel (subs psubs : Field → List CallbackId)
    (resolver : FieldSet → ResolverOutcome) (affected : List Field)
    (s : StoreState) : StoreState × Option String :=
  let r1 := pendingLoop true psubs affected s.pendingCount s.pendingState []
  match r1.error with
  | some e =>
    -- `pending(affected, true)` is outside the try, so its error
    -- propagates without running the resolver or the finally block
    (⟨s.fieldSet, r1.pendingCount, r1.pendingState⟩, some e)
  | none =>
    match resolver s.fieldSet with
    | .ok v =>
      let fs2 := if jsTruthy v then (dispatchUpdate subs s.fieldSet (.val v)).1
                 else s.fieldSet
      let r2 := pendingLoop false psubs affected r1.pendingCount r1.pendingState []
      (⟨fs2, r2.pendingCount, r2.pendingState⟩, r2.error)
    | .err e =>
      let r2 := pendingLoop false psubs affected r1.pendingCount r1.pendingState []
      (⟨s.fieldSet, r2.pendingCount, r2.pendingState⟩, some (r2.error.getD e))

/-- The runtime validation `createStore` performs on its argument:
`initialState == null || typeof initialState !== "object" ||
Array.isArray(initialState)` throws "Root store value must be an
object".  (`== null` is loose equality, satisfied by both `null` and
`undefined`; arrays do not occur in this value model, so
`Array.isArray` is identically false.)  `true` means construction
throws. -/
def rootStoreThrows (initialState : JSValue) : Bool :=
  (match initialState with
    | .null => true
    | .undef => true
    | _ => false)
  || jsTypeof initialState != "object"

/-! ## Helper lemmas -/

theorem mem_insertUnique {a c : CallbackId} {acc : List CallbackId} :
    a ∈ insertUnique acc c ↔ a ∈ acc ∨ a = c := by
  unfold insertUnique
  split
  · rename_i hc
    constructor
    · exact fun h => Or.inl h
    · rintro (h | rfl)
      · exact h
      · exact hc
  · simp [List.mem_append]

theorem nodup_insertUnique {c : CallbackId} {acc : List CallbackId}
    (h : acc.Nodup) : (insertUnique acc c).Nodup := by
  unfold insertUnique
  split
  · exact h
  · rename_i hc
    simp [List.nodup_append, h, hc]

theorem mem_insertAll {a : CallbackId} {acc l : List CallbackId} :
    a ∈ insertAll acc l ↔ a ∈ acc ∨ a ∈ l := by
  induction l generalizing acc with
  | nil => simp [insertAll]
  | cons c rest ih =>
    show a ∈ insertAll (insertUnique acc c) rest ↔ _
    rw [ih, mem_insertUnique]
    simp [List.mem_cons]
    tauto

theorem nodup_insertAll {acc l : List CallbackId} (h : acc.Nodup) :
    (insertAll acc l).Nodup := by
  induction l generalizing acc with
  | nil => exact h
  | cons c rest ih => exact ih (nodup_insertUnique h)

theorem mem_foldl_insertAll {a : CallbackId} {L : List (List CallbackId)}
    {acc : List CallbackId} :
    a ∈ L.foldl insertAll acc ↔ a ∈ acc ∨ ∃ l ∈ L, a ∈ l := by
  induction L generalizing acc with
  | nil => simp
  | cons l L ih =>
    rw [List.foldl_cons, ih, mem_insertAll]
    simp [List.mem_cons]
    tauto

theorem nodup_foldl_insertAll {L : List (List CallbackId)}
    {acc : List CallbackId} (h : acc.Nodup) :
    (L.foldl insertAll acc).Nodup := by
  induction L generalizing acc with
  | nil => exact h
  | cons l L ih => exact ih (nodup_insertAll h)

theorem mem_notifyList {subs : Field → List CallbackId} {contexts : List Field}
    {c : CallbackId} :
    c ∈ notifyList subs contexts ↔ ∃ f ∈ contexts, c ∈ subs f := by
  unfold notifyList
  rw [mem_foldl_insertAll]
  simp

theorem nodup_notifyList {subs : Field → List CallbackId}
    {contexts : List Field} : (notifyList subs contexts).Nodup :=
  nodup_foldl_insertAll List.nodup_nil

theorem lookupLast_cons (k : Field) (v : JSValue) (rest : JSObject) (f : Field) :
    lookupLast ((k, v) :: rest) f =
      (lookupLast rest f).or (if k = f then some v else none) := by
  cases h : lookupLast rest f <;> simp [lookupLast, h, Option.or]

theorem or_assoc_option {α : Type} (a b c : Option α) :
    (a.or b).or c = a.or (b.or c) := by
  cases a <;> cases b <;> rfl

theorem lookupLast_append (a b : JSObject) (f : Field) :
    lookupLast (a ++ b) f = (lookupLast b f).or (lookupLast a f) := by
  induction a with
  | nil =>
    cases h : lookupLast b f <;> simp [lookupLast, Option.or, h]
  | cons e a ih =>
    obtain ⟨k, v⟩ := e
    rw [List.cons_append, lookupLast_cons, ih, lookupLast_cons, or_assoc_option]

theorem lookupLast_some_mem {p : JSObject} {f : Field} {v : JSValue}
    (h : lookupLast p f = some v) : f ∈ objKeys p := by
  induction p generalizing v with
  | nil => simp [lookupLast] at h
  | cons e rest ih =>
    obtain ⟨k, w⟩ := e
    rw [lookupLast_cons] at h
    cases hr : lookupLast rest f with
    | some u =>
      have := ih hr
      simp [objKeys] at this ⊢
      tauto
    | none =>
      rw [hr] at h
      simp only [Option.or] at h
      split at h
      · rename_i hk
        simp [objKeys, hk]
      · exact absurd h (by simp)

theorem findSome?_append {α β : Type} (l₁ l₂ : List α) (g : α → Option β) :
    (l₁ ++ l₂).findSome? g = (l₁.findSome? g).or (l₂.findSome? g) := by
  induction l₁ with
  | nil =>
    cases h : l₂.findSome? g <;> simp [Option.or, h]
  | cons a l ih =>
    rw [List.cons_append]
    cases ha : g a <;> simp [List.findSome?_cons, ha, ih, Option.or]

theorem lastPatchWins_cons (p : JSObject) (rest : List JSObject) (f : Field) :
    lastPatchWins (p :: rest) f = (lastPatchWins rest f).or (lookupLast p f) := by
  unfold lastPatchWins
  rw [List.reverse_cons, findSome?_append]
  cases h : List.findSome? (fun q => lookupLast q f) rest.reverse <;>
    cases hp : lookupLast p f <;> simp [List.findSome?_cons, h, hp, Option.or]

theorem runCallbacks_eq (beh : CallbackId → Bool) (l : List CallbackId) :
    runCallbacks beh l = (l.take (l.findIdx beh + 1), l.any beh) := by
  induction l with
  | nil => simp [runCallbacks]
  | cons c rest ih =>
    unfold runCallbacks
    cases hc : beh c with
    | true => simp [List.findIdx_cons, hc]
    | false => simp [List.findIdx_cons, hc, ih, List.take_succ_cons]

theorem dispatchUpdate_obj (subs : Field → List CallbackId) (fs : FieldSet)
    (p : JSObject) :
    dispatchUpdate subs fs (.val (.obj p)) =
      (spreadMerge fs p,
        (notifyList subs (objKeys p)).map (fun c => (c, spreadMerge fs p))) := by
  simp [dispatchUpdate, jsTruthy, jsTypeof]

theorem dispatchUpdateT_obj (subs : Field → List CallbackId)
    (beh : CallbackId → Bool) (fs : FieldSet) (p : JSObject) :
    dispatchUpdateT subs beh fs (.val (.obj p)) =
      (spreadMerge fs p, runCallbacks beh (notifyList subs (objKeys p))) := by
  simp [dispatchUpdateT, jsTruthy, jsTypeof]

theorem writeSeq_eq_foldl (subs : Field → List CallbackId) (fs : FieldSet)
    (patches : List JSObject) :
    writeSeq subs fs patches = patches.foldl spreadMerge fs := by
  induction patches generalizing fs with
  | nil => rfl
  | cons p rest ih =>
    show writeSeq subs ((dispatchUpdate subs fs (.val (.obj p))).1) rest = _
    rw [dispatchUpdate_obj, ih, List.foldl_cons]

theorem pendingLoop_inc (psubs : Field → List CallbackId)
    (contexts : List Field) (pc : Field → Int) (ps : Field → Bool)
    (acc : List CallbackId) (h : ∀ f, 0 ≤ pc f) :
    (pendingLoop true psubs contexts pc ps acc).error = none ∧
    ∀ f, (pendingLoop true psubs contexts pc ps acc).pendingCount f =
      pc f + (contexts.count f : Int) := by
  induction contexts generalizing pc ps acc with
  | nil => simp [pendingLoop]
  | cons g rest ih =>
    have hguard : ¬ (pc g + 1 < 0) := by have := h g; omega
    have hstep :
        pendingLoop true psubs (g :: rest) pc ps acc =
          pendingLoop true psubs rest (setVal pc g (pc g + 1))
            (setVal ps g (decide (0 < pc g + 1))) (insertAll acc (psubs g)) := by
      simp [pendingLoop, hguard]
    rw [hstep]
    have h' : ∀ f, 0 ≤ setVal pc g (pc g + 1) f := by
      intro f
      unfold setVal
      split <;> [skip; exact h f]
      have := h g; omega
    obtain ⟨he, hc⟩ := ih (setVal pc g (pc g + 1)) (setVal ps g (decide (0 < pc g + 1)))
      (insertAll acc (psubs g)) h'
    refine ⟨he, fun f => ?_⟩
    rw [hc f]
    unfold setVal
    rcases eq_or_ne f g with rfl | hne
    · simp [List.count_cons]
      omega
    · simp [List.count_cons, hne, Ne.symm hne]

theorem pendingLoop_dec (psubs : Field → List CallbackId)
    (contexts : List Field) (pc : Field → Int) (ps : Field → Bool)
    (acc : List CallbackId) (h : ∀ f, (contexts.count f : Int) ≤ pc f) :
    (pendingLoop false psubs contexts pc ps acc).error = none ∧
    ∀ f, (pendingLoop false psubs contexts pc ps acc).pendingCount f =
      pc f - (contexts.count f : Int) := by
  induction contexts generalizing pc ps acc with
  | nil => simp [pendingLoop]
  | cons g rest ih =>
    have hg : ((g :: rest).count g : Int) ≤ pc g := h g
    have hcount : (g :: rest).count g = rest.count g + 1 := by
      simp [List.count_cons]
    have hguard : ¬ (pc g + -1 < 0) := by
      rw [hcount] at hg
      push_cast at hg
      omega
    have hstep :
        pendingLoop false psubs (g :: rest) pc ps acc =
          pendingLoop false psubs rest (setVal pc g (pc g + -1))
            (setVal ps g (decide (0 < pc g + -1))) (insertAll acc (psubs g)) := by
      simp [pendingLoop, hguard]
    rw [hstep]
    have h' : ∀ f, (rest.count f : Int) ≤ setVal pc g (pc g + -1) f := by
      intro f
      unfold setVal
      rcases eq_or_ne f g with rfl | hne
      · simp only [if_pos rfl]
        rw [hcount] at hg
        push_cast at hg ⊢
        omega
      · rw [if_neg hne]
        have := h f
        rw [List.count_cons, if_neg (by simpa using Ne.symm hne)] at this
        exact this
    obtain ⟨he, hc⟩ := ih (setVal pc g (pc g + -1))
      (setVal ps g (decide (0 < pc g + -1))) (insertAll acc (psubs g)) h'
    refine ⟨he, fun f => ?_⟩
    rw [hc f]
    unfold setVal
    rcases eq_or_ne f g with rfl | hne
    · simp [List.count_cons]
      omega
    · simp [List.count_cons, hne, Ne.symm hne]

theorem map_fst_map_pair {l : List CallbackId} {z : FieldSet} :
    ((l.map (fun d => (d, z))).map Prod.fst) = l := by
  induction l with
  | nil => rfl
  | cons a l ih => simp_all

/-! ## Claim theorems -/

/-- C1: for every `update` call with an object-shaped patch and every
callback subscribed under at least one of the patch's keys, the
notification pass of that call invokes the callback exactly once (even
when it is subscribed under several of the changed fields), and every
invocation of the pass receives the full post-write snapshot as its
argument. -/
theorem write_notifies_subscriber_once (subs : Field → List CallbackId)
    (fs : FieldSet) (p : JSObject) (c : CallbackId)
    (h : ∃ f ∈ objKeys p, c ∈ subs f) :
    (((dispatchUpdate subs fs (.val (.obj p))).2.map Prod.fst).count c = 1) ∧
    ∀ x ∈ (dispatchUpdate subs fs (.val (.obj p))).2, x.2 = spreadMerge fs p := by
  rw [dispatchUpdate_obj]
  constructor
  · have hmem : c ∈ notifyList subs (objKeys p) := mem_notifyList.mpr h
    rw [map_fst_map_pair]
    exact List.count_eq_one_of_mem nodup_notifyList hmem
  · intro x hx
    simp only [List.mem_map] at hx
    obtain ⟨d, _, rfl⟩ := hx
    rfl

/-- Concrete subscriber map for the C1 witness: callback 7 is
subscribed under both "a" and "b". -/
def subsW : Field → List CallbackId := fun f => if f = "a" ∨ f = "b" then [7] else []

/-- C1 witness: a write touching both "a" and "b" invokes callback 7
exactly once. -/
theorem write_notifies_subscriber_once_witness :
    (∃ f ∈ objKeys [("a", JSValue.num 1), ("b", JSValue.num 2)], 7 ∈ subsW f) ∧
    (((dispatchUpdate subsW [("a", JSValue.num 0), ("b", JSValue.num 0)]
        (.val (.obj [("a", JSValue.num 1), ("b", JSValue.num 2)]))).2.map
          Prod.fst).count 7 = 1) :=
  ⟨by decide,
    (write_notifies_subscriber_once subsW [("a", JSValue.num 0), ("b", JSValue.num 0)]
      [("a", JSValue.num 1), ("b", JSValue.num 2)] 7 (by decide)).1⟩

/-- C4: after any sequence of `update` calls with object-shaped
patches, each field reads as the value given by the last patch binding
it, or as its prior value if no patch bound it (the `{...old, ...patch}`
spread produces a new field-set value at each step, and the fold below
is exactly that semantics applied in order). -/
theorem write_sequence_merges_last_wins (subs : Field → List CallbackId)
    (fs : FieldSet) (patches : List JSObject) (f : Field) :
    lookupLast (writeSeq subs fs patches) f =
      (lastPatchWins patches f).or (lookupLast fs f) := by
  rw [writeSeq_eq_foldl]
  induction patches generalizing fs with
  | nil => cases h : lookupLast fs f <;> simp [lastPatchWins, Option.or, h]
  | cons p rest ih =>
    rw [List.foldl_cons, ih, lastPatchWins_cons]
    show (lastPatchWins rest f).or (lookupLast (fs ++ p) f) = _
    rw [lookupLast_append, or_assoc_option]

/-- C6: a patch key whose value is identical to the field's current
value (and not `undefined`) still triggers notification of that
field's subscribers — patch-key presence is the trigger, with no
value-equality short-circuit. -/
theorem unchanged_value_still_notifies (subs : Field → List CallbackId)
    (fs : FieldSet) (p : JSObject) (c : CallbackId) (f : Field) (v : JSValue)
    (hpatch : lookupLast p f = some v)
    (_hsame : fsGet fs f = v)
    (_hu : v ≠ JSValue.undef)
    (hsub : c ∈ subs f) :
    c ∈ (dispatchUpdate subs fs (.val (.obj p))).2.map Prod.fst := by
  rw [dispatchUpdate_obj]
  rw [map_fst_map_pair]
  exact mem_notifyList.mpr ⟨f, lookupLast_some_mem hpatch, hsub⟩

/-- Concrete subscriber map for the C6 witness: callback 3 is
subscribed under "a". -/
def subsC6 : Field → List CallbackId := fun f => if f = "a" then [3] else []

/-- C6 witness: writing `{a: 5}` when "a" already holds 5 still
notifies the subscriber of "a". -/
theorem unchanged_value_still_notifies_witness :
    lookupLast [("a", JSValue.num 5)] "a" = some (JSValue.num 5) ∧
    fsGet [("a", JSValue.num 5)] "a" = JSValue.num 5 ∧
    JSValue.num 5 ≠ JSValue.undef ∧
    3 ∈ subsC6 "a" ∧
    3 ∈ (dispatchUpdate subsC6 [("a", JSValue.num 5)]
        (.val (.obj [("a", JSValue.num 5)]))).2.map Prod.fst :=
  ⟨rfl, rfl, (by intro h; cases h), (by decide),
    unchanged_value_still_notifies subsC6 [("a", JSValue.num 5)]
      [("a", JSValue.num 5)] 3 "a" (JSValue.num 5) rfl rfl
      (by intro h; cases h) (by decide)⟩

/-- Patch function for the C7 counterexample: had it been handed the
pre-write state object it would produce the patch `{b: <value of a>}`;
handed anything else — in particular `undefined` — it returns
`null`. -/
def gReader : JSValue → JSValue
  | .obj fs2 => .obj [("b", fsGet fs2 "a")]
  | _ => .null

/-- C7 counterexample: the source invokes a function patch as
`value()`, with no argument, not with the current field set.  On the
state `{a: 9}`, `gReader` applied to the current field set would give
the patch `{b: 9}`, yet the write is a complete no-op (the function
received `undefined` and returned `null`) — which differs from writing
the patch obtained from the current field set.  So the claim that the
function "is invoked with the current FieldSet as its argument" fails
at this concrete input. -/
theorem function_patch_no_argument_cex :
    gReader (JSValue.obj [("a", JSValue.num 9)]) = JSValue.obj [("b", JSValue.num 9)] ∧
    dispatchUpdate (fun _ => []) [("a", JSValue.num 9)] (.func gReader) =
      ([("a", JSValue.num 9)], []) ∧
    dispatchUpdate (fun _ => []) [("a", JSValue.num 9)] (.func gReader) ≠
      dispatchUpdate (fun _ => []) [("a", JSValue.num 9)]
        (.val (gReader (JSValue.obj [("a", JSValue.num 9)]))) := by
  refine ⟨rfl, rfl, fun h => ?_⟩
  exact absurd (congrArg (fun x => x.1.length) h) (by decide)

/-- C7 (amended): an `update` call given a patch-producing function
invokes it with NO argument (`value()` in the source; a parameter the
function declares is bound to `undefined`), and the value it returns
is then used as the patch to merge, exactly as a direct object patch
would be. -/
theorem function_patch_called_without_argument (subs : Field → List CallbackId)
    (fs : FieldSet) (g : JSValue → JSValue) (p : JSObject)
    (h : g JSValue.undef = JSValue.obj p) :
    dispatchUpdate subs fs (.func g) =
      (spreadMerge fs p,
        (notifyList subs (objKeys p)).map (fun c => (c, spreadMerge fs p))) := by
  have hval : dispatchUpdate subs fs (.func g) =
      dispatchUpdate subs fs (.val (g JSValue.undef)) := rfl
  rw [hval, h, dispatchUpdate_obj]

/-- Function patch for the C7 witness: it returns the patch `{b: 1}`
precisely when called with `undefined` (and `null` otherwise), so the
merge below demonstrates that the argument really is `undefined`. -/
def gThunk : JSValue → JSValue
  | .undef => .obj [("b", JSValue.num 1)]
  | _ => .null

/-- C7 witness: the function patch, called with `undefined`, resolves
to `{b: 1}` and is merged like a direct object patch. -/
theorem function_patch_called_without_argument_witness :
    gThunk JSValue.undef = JSValue.obj [("b", JSValue.num 1)] ∧
    dispatchUpdate (fun _ => []) [("a", JSValue.num 9)] (.func gThunk) =
      (spreadMerge [("a", JSValue.num 9)] [("b", JSValue.num 1)],
        (notifyList (fun _ => []) (objKeys [("b", JSValue.num 1)])).map
          (fun c => (c, spreadMerge [("a", JSValue.num 9)] [("b", JSValue.num 1)]))) :=
  ⟨rfl, function_patch_called_without_argument (fun _ => []) [("a", JSValue.num 9)]
    gThunk [("b", JSValue.num 1)] rfl⟩

/-- C8: an `update` whose resolved patch is not an object (e.g.
`null`, `undefined`, a number, a string or a boolean) is a complete
no-op: the field set is unchanged and no subscriber is invoked. -/
theorem non_object_patch_is_noop (subs : Field → List CallbackId)
    (fs : FieldSet) (v : JSValue) (h : ∀ p, v ≠ JSValue.obj p) :
    dispatchUpdate subs fs (.val v) = (fs, []) := by
  cases v with
  | obj p => exact absurd rfl (h p)
  | undef => rfl
  | null => rfl
  | bool b => simp [dispatchUpdate, jsTypeof]
  | num n => simp [dispatchUpdate, jsTypeof]
  | str s => simp [dispatchUpdate, jsTypeof]

/-- C8 witness: writing `null` changes nothing and notifies nobody. -/
theorem non_object_patch_is_noop_witness :
    dispatchUpdate (fun _ => []) [("a", JSValue.num 1)] (.val JSValue.null) =
      ([("a", JSValue.num 1)], []) :=
  non_object_patch_is_noop (fun _ => []) [("a", JSValue.num 1)] JSValue.null
    (fun _ h => JSValue.noConfusion h)

/-- C3: decrementing a field whose pending count is 0 throws the
imbalanced-pending error synchronously; the count stays 0 (never
clamped below zero) and no pending-subscriber is notified. -/
theorem pending_decrement_at_zero_throws (psubs : Field → List CallbackId)
    (f : Field) (pc : Field → Int) (ps : Field → Bool) (h : pc f = 0) :
    (pendingModel psubs [f] false pc ps).1.pendingCount f = 0 ∧
    (pendingModel psubs [f] false pc ps).1.error =
      some ("Too many calls to pending(\"" ++ f ++ "\", false)") ∧
    (pendingModel psubs [f] false pc ps).2 = [] := by
  have hguard : pc f + -1 < 0 := by omega
  have hloop : pendingLoop false psubs [f] pc ps [] =
      ⟨pc, ps, [], some ("Too many calls to pending(\"" ++ f ++ "\", false)")⟩ := by
    simp [pendingLoop, hguard]
  simp [pendingModel, hloop, h]

/-- C3 witness: a fresh tracker (count 0 for "x") throws on
`pending("x", false)` and keeps the count at 0. -/
theorem pending_decrement_at_zero_throws_witness :
    ((fun _ : Field => (0 : Int)) "x" = 0) ∧
    (pendingModel (fun _ => []) ["x"] false (fun _ => 0) (fun _ => false)).1.pendingCount "x" = 0 ∧
    (pendingModel (fun _ => []) ["x"] false (fun _ => 0) (fun _ => false)).1.error =
      some ("Too many calls to pending(\"" ++ "x" ++ "\", false)") ∧
    (pendingModel (fun _ => []) ["x"] false (fun _ => 0) (fun _ => false)).2 = [] :=
  ⟨rfl, pending_decrement_at_zero_throws (fun _ => []) "x" (fun _ => 0)
    (fun _ => false) rfl⟩

/-- C10: `pending([f1, f2], false)` with `f1`'s count positive and
`f2`'s count 0 throws the imbalanced-pending error, but `f1` has
already been decremented (and its boolean state updated) before the
throw, and no pending-subscriber is notified during the call — the
multi-field decrement is not atomic on error. -/
theorem pending_partial_decrement_not_atomic (psubs : Field → List CallbackId)
    (f1 f2 : Field) (pc : Field → Int) (ps : Field → Bool)
    (hne : f1 ≠ f2) (h1 : 0 < pc f1) (h2 : pc f2 = 0) :
    (pendingModel psubs [f1, f2] false pc ps).1.pendingCount f1 = pc f1 - 1 ∧
    (pendingModel psubs [f1, f2] false pc ps).1.pendingState f1 =
      decide (0 < pc f1 - 1) ∧
    (pendingModel psubs [f1, f2] false pc ps).1.error =
      some ("Too many calls to pending(\"" ++ f2 ++ "\", false)") ∧
    (pendingModel psubs [f1, f2] false pc ps).2 = [] := by
  have h21 : f2 ≠ f1 := Ne.symm hne
  have hg1 : ¬ (pc f1 + -1 < 0) := by omega
  have hg2 : setVal pc f1 (pc f1 + -1) f2 + -1 < 0 := by
    simp only [setVal, if_neg h21]
    omega
  have hloop : pendingLoop false psubs [f1, f2] pc ps [] =
      ⟨setVal pc f1 (pc f1 + -1), setVal ps f1 (decide (0 < pc f1 + -1)),
        insertAll [] (psubs f1),
        some ("Too many calls to pending(\"" ++ f2 ++ "\", false)")⟩ := by
    simp [pendingLoop, hg1, hg2]
  have hres : pendingModel psubs [f1, f2] false pc ps =
      (⟨setVal pc f1 (pc f1 + -1), setVal ps f1 (decide (0 < pc f1 + -1)),
        insertAll [] (psubs f1),
        some ("Too many calls to pending(\"" ++ f2 ++ "\", false)")⟩, []) := by
    simp [pendingModel, hloop]
  refine ⟨?_, ?_, ?_, ?_⟩ <;> rw [hres] <;>
    simp [setVal, sub_eq_add_neg]

/-- Pending counts for the C10 witness: "x" has one in-flight
operation, every other field none. -/
def pcW : Field → Int := fun f => if f = "x" then 1 else 0

/-- C10 witness: `pending(["x", "y"], false)` with `x` at 1 and `y`
at 0 throws, leaves `x` decremented to 0, and notifies nobody. -/
theorem pending_partial_decrement_not_atomic_witness :
    (pendingModel (fun _ => []) ["x", "y"] false pcW (fun _ => true)).1.pendingCount "x" = 0 ∧
    (pendingModel (fun _ => []) ["x", "y"] false pcW (fun _ => true)).1.pendingState "x" = false ∧
    (pendingModel (fun _ => []) ["x", "y"] false pcW (fun _ => true)).1.error =
      some ("Too many calls to pending(\"" ++ "y" ++ "\", false)") ∧
    (pendingModel (fun _ => []) ["x", "y"] false pcW (fun _ => true)).2 = [] := by
  have h := pending_partial_decrement_not_atomic (fun _ => []) "x" "y" pcW
    (fun _ => true) (by decide) (by decide) (by decide)
  refine ⟨h.1.trans (by decide), h.2.1.trans (by decide), h.2.2.1, h.2.2.2⟩

/-- C2: an operation produced by `action(resolver, affected)` leaves
every field's pending count exactly as it was (net zero) whether the
resolver succeeds or fails (a synchronous throw and a rejected promise
reach the same `await` failure point), and a failure is re-raised to
the operation's caller after pending is reset, never swallowed.  The
hypothesis is the pending-tracker invariant: counts are non-negative,
which holds in every state the store can reach. -/
theorem action_pending_balanced (subs psubs : Field → List CallbackId)
    (resolver : FieldSet → ResolverOutcome) (affected : List Field)
    (s : StoreState) (h : ∀ f, 0 ≤ s.pendingCount f) :
    (∀ f, (actionModel subs psubs resolver affected s).1.pendingCount f =
        s.pendingCount f) ∧
    (∀ e, resolver s.fieldSet = .err e →
        (actionModel subs psubs resolver affected s).2 = some e) ∧
    (∀ v, resolver s.fieldSet = .ok v →
        (actionModel subs psubs resolver affected s).2 = none) := by
  obtain ⟨he1, hc1⟩ :=
    pendingLoop_inc psubs affected s.pendingCount s.pendingState [] h
  obtain ⟨he2, hc2⟩ :=
    pendingLoop_dec psubs affected
      (pendingLoop true psubs affected s.pendingCount s.pendingState []).pendingCount
      (pendingLoop true psubs affected s.pendingCount s.pendingState []).pendingState
      [] (fun f => by rw [hc1 f]; have := h f; omega)
  refine ⟨fun f => ?_, fun e hres => ?_, fun v hres => ?_⟩
  · simp only [actionModel, he1]
    rcases hres : resolver s.fieldSet with v | e <;>
      simp only [hres] <;> rw [hc2 f, hc1 f] <;> omega
  · simp only [actionModel, he1, hres, he2]
    rfl
  · simp only [actionModel, he1, hres]
    exact he2

/-- C2 witness: with all counts at 0, a failing resolver over
affected field "x" leaves the count at 0 and the error "boom" is
re-raised to the caller. -/
theorem action_pending_balanced_witness :
    (actionModel (fun _ => []) (fun _ => [])
      (fun _ => ResolverOutcome.err "boom") ["x"]
      ⟨[], fun _ => 0, fun _ => false⟩).1.pendingCount "x" = 0 ∧
    (actionModel (fun _ => []) (fun _ => [])
      (fun _ => ResolverOutcome.err "boom") ["x"]
      ⟨[], fun _ => 0, fun _ => false⟩).2 = some "boom" :=
  ⟨((action_pending_balanced (fun _ => []) (fun _ => [])
      (fun _ => ResolverOutcome.err "boom") ["x"]
      ⟨[], fun _ => 0, fun _ => false⟩ (fun _ => le_refl 0)).1 "x"),
    ((action_pending_balanced (fun _ => []) (fun _ => [])
      (fun _ => ResolverOutcome.err "boom") ["x"]
      ⟨[], fun _ => 0, fun _ => false⟩ (fun _ => le_refl 0)).2.1 "boom" rfl)⟩

/-- Subscriber map for the C5 counterexample: callbacks 0 and 1 are
both subscribed under "a", in that insertion order. -/
def subsC5 : Field → List CallbackId := fun f => if f = "a" then [0, 1] else []

/-- Callback behaviour for the C5 counterexample: callback 0 throws
when invoked, callback 1 does not. -/
def behC5 : CallbackId → Bool := fun c => c == 0

/-- C5 counterexample: callback 1 is subscribed to the changed field
"a", callback 0 (invoked first) throws, the error escapes the pass,
and callback 1 is never invoked — refuting the claim that remaining
callbacks are still invoked after one throws. -/
theorem notify_throw_skips_rest_cex :
    1 ∈ subsC5 "a" ∧
    (dispatchUpdateT subsC5 behC5 [("a", JSValue.num 1)]
        (.val (.obj [("a", JSValue.num 2)]))).2.2 = true ∧
    1 ∉ (dispatchUpdateT subsC5 behC5 [("a", JSValue.num 1)]
        (.val (.obj [("a", JSValue.num 2)]))).2.1 := by
  decide

/-- C5 (amended): the source has no try/catch around callback
invocation, so when a callback throws during a notification pass the
pass aborts: exactly the callbacks up to and including the first
throwing one (in pass order) are invoked, the error propagates to the
writer, and the already-committed state change is not rolled back. -/
theorem notify_throw_aborts_pass (subs : Field → List CallbackId)
    (beh : CallbackId → Bool) (fs : FieldSet) (p : JSObject) :
    (dispatchUpdateT subs beh fs (.val (.obj p))).1 = spreadMerge fs p ∧
    (dispatchUpdateT subs beh fs (.val (.obj p))).2.1 =
      (notifyList subs (objKeys p)).take
        ((notifyList subs (objKeys p)).findIdx beh + 1) ∧
    (dispatchUpdateT subs beh fs (.val (.obj p))).2.2 =
      (notifyList subs (objKeys p)).any beh := by
  rw [dispatchUpdateT_obj, runCallbacks_eq]
  exact ⟨rfl, rfl, rfl⟩

/-- C9 counterexample: with schema `{a}` and the empty object as
initial state (field "a" entirely missing — a partial initialization),
`createStore`'s runtime validation does NOT throw, refuting the claim
that partial initialization fails fatally at construction. -/
theorem construction_no_schema_check_cex :
    ¬ ((∃ f ∈ ["a"], (lookupLast ([] : FieldSet) f).isNone = true) →
       rootStoreThrows (JSValue.obj []) = true) := by
  intro h
  exact absurd (h ⟨"a", by simp, rfl⟩) (by decide)

/-- C9 (amended): the only validation `createStore` performs at
construction is that the root value is a non-null object: any
object-shaped initial state is accepted, even one missing schema
fields or holding `undefined`, while `null`, `undefined`, numbers,
strings and booleans are rejected with the fatal root-store error.
Missing fields are left to the static type system (`Required<T>`). -/
theorem construction_checks_root_object_only :
    (∀ fields : JSObject, rootStoreThrows (JSValue.obj fields) = false) ∧
    rootStoreThrows JSValue.null = true ∧
    rootStoreThrows JSValue.undef = true ∧
    (∀ n : Int, rootStoreThrows (JSValue.num n) = true) ∧
    (∀ s : String, rootStoreThrows (JSValue.str s) = true) ∧
    (∀ b : Bool, rootStoreThrows (JSValue.bool b) = true) :=
  ⟨fun _ => rfl, rfl, rfl, fun _ => rfl, fun _ => rfl, fun _ => rfl⟩

end Squawk
